import Mathlib

/-!
Verification of the Wix HTTP endpoint handlers (`uploadImageToItem.js`,
`codeToUpdateAnyField`, the bulk image uploader, and the `backend/events.js`
callback) against their design specification.

The JavaScript is shallowly embedded: JS strings are Lean `String`s and the
string operations used by the source (`split`, `pop`, `toLowerCase`,
`startsWith`, `replace` of a leading prefix) are modelled on the underlying
character list so that every definition is executable and kernel-reducible.
JS objects whose fields are accessed dynamically (the `updates` payload, the
record being merged) are association lists with JS assignment semantics;
platform calls (`getSecret`, `mediaManager.importFile`, `wixData.get/update/
replaceReferences`) are parameters or an emitted operation trace.
-/

namespace Wix

/-! ## JS string primitives, modelled on the character list -/

/-- JS `str.split(sep)` for a one-character separator, on the character
list.  `split` always yields at least one (possibly empty) segment. -/
def splitChar (c : Char) : List Char → List (List Char)
  | [] => [[]]
  | ch :: rest =>
    let r := splitChar c rest
    if ch = c then [] :: r
    else
      match r with
      | [] => [[ch]]
      | seg :: segs => (ch :: seg) :: segs

/-- JS `str.split(c)` for a one-character separator string. -/
def jsSplit (s : String) (c : Char) : List String :=
  (splitChar c s.data).map String.mk

/-- JS `arr.pop()` on the non-empty array produced by `split`: the last
segment (`""` for the empty list, which `split` never produces). -/
def lastSeg (l : List String) : String :=
  l.getLastD ""

/-- JS `str.toLowerCase()` (the source only ever lowercases ASCII
extensions, where `Char.toLower` agrees with JS). -/
def jsToLower (s : String) : String :=
  ⟨s.data.map Char.toLower⟩

/-- JS `str.startsWith(pre)`. -/
def jsStartsWith (s pre : String) : Bool :=
  pre.data.isPrefixOf s.data

/-- Dropping the first `n` characters.  The source strips prefixes with
`key.replace(pre, "")`, which removes the leftmost occurrence of `pre`;
under the `key.startsWith(pre)` guards of the source that occurrence is the
leading prefix, so the call equals dropping `pre.length` characters. -/
def jsDrop (s : String) (n : Nat) : String :=
  ⟨s.data.drop n⟩

/-! ## JS values and objects -/

/-- The JS values the handlers manipulate.  Numbers are integers (the only
numeric comparison in the source is strict equality with `1`); `date v` is
the opaque `Date` object built by `new Date(v)`; arrays appear only as the
identifier lists of multi-reference updates, hence `arr : List String`. -/
inductive JsVal where
  | undef
  | jsNull
  | bool (b : Bool)
  | num (n : Int)
  | str (s : String)
  | arr (ids : List String)
  | date (v : JsVal)
  deriving DecidableEq, Repr

/-- A JS object: an association list of own enumerable properties in
insertion order. -/
abbrev JsObj := List (String × JsVal)

/-- JS property assignment `obj[k] = v`: overwrite the property in place
(a JS object holds each key once) if it exists, otherwise append. -/
def setKey : JsObj → String → JsVal → JsObj
  | [], k, v => [(k, v)]
  | p :: rest, k, v =>
    if p.1 = k then (k, v) :: rest else p :: setKey rest k v

/-- JS property read `obj[k]` (`undefined` when absent). -/
def getKey : JsObj → String → JsVal
  | [], _ => JsVal.undef
  | p :: rest, k => if p.1 = k then p.2 else getKey rest k

/-- Whether the object has own property `k`. -/
def hasKey : JsObj → String → Bool
  | [], _ => false
  | p :: rest, k => p.1 = k || hasKey rest k

/-- The key list of an object. -/
def keys (obj : JsObj) : List String :=
  obj.map Prod.fst

/-- JS spread `{ ...a, ...b }`: assign `b`'s properties, in order, on top
of `a`. -/
def spread (a b : JsObj) : JsObj :=
  b.foldl (fun acc kv => setKey acc kv.1 kv.2) a

/-! ## `post_updateItemField` (codeToUpdateAnyField): the field-update
merge engine -/

/-- The source's safe-boolean coercion:
`value === true || value === "true" || value === 1 || value === "1"`. -/
def safeboolCoerce (v : JsVal) : Bool :=
  v == JsVal.bool true || v == JsVal.str "true" ||
  v == JsVal.num 1 || v == JsVal.str "1"

/-- A deferred multi-reference update `{ fieldName, ids }` collected for
`wixData.replaceReferences`. -/
structure RefUpdate where
  fieldName : String
  ids : List String
  deriving DecidableEq, Repr

/-- The accumulator of the source's `reduce`: the cleaned updates object
`acc` plus the `multiRefUpdates` list (pushed in encounter order). -/
structure CleanState where
  acc : JsObj
  multiRefUpdates : List RefUpdate
  deriving DecidableEq, Repr

/-- One step of the `Object.entries(updates).reduce` of
`post_updateItemField`: classify the key by prefix (`date_`, then `refs_`,
then `safebool_`, else pass through verbatim). -/
def cleanStep (s : CleanState) (kv : String × JsVal) : CleanState :=
  if jsStartsWith kv.1 "date_" then
    { s with acc := setKey s.acc (jsDrop kv.1 5) (JsVal.date kv.2) }
  else if jsStartsWith kv.1 "refs_" then
    match kv.2 with
    | JsVal.arr ids =>
      { s with multiRefUpdates :=
          s.multiRefUpdates ++ [⟨jsDrop kv.1 5, ids⟩] }
    | _ => s
  else if jsStartsWith kv.1 "safebool_" then
    { s with acc :=
        setKey s.acc (jsDrop kv.1 9) (JsVal.bool (safeboolCoerce kv.2)) }
  else
    { s with acc := setKey s.acc kv.1 kv.2 }

/-- The whole `reduce` producing `cleanedUpdates` and `multiRefUpdates`.
`updates` is the entry list of the JSON `updates` object in its given
order. -/
def cleanUpdates (updates : List (String × JsVal)) : CleanState :=
  updates.foldl cleanStep ⟨[], []⟩

/-- `const updatedItem = { ...existingItem, ...cleanedUpdates }`. -/
def mergedItem (existingItem : JsObj) (updates : List (String × JsVal)) :
    JsObj :=
  spread existingItem (cleanUpdates updates).acc

/-- The persisted operations a handler issues, in order. -/
inductive DbOp where
  | update (collectionName : String) (item : JsObj)
  | replaceReferences (collectionName fieldName itemId : String)
      (ids : List String)
  deriving DecidableEq, Repr

/-- The persistence trace of `post_updateItemField` after authorization,
body validation and the successful fetch of `existingItem`: one
`wixData.update` with the merged item, then one
`wixData.replaceReferences` per collected multi-reference update. -/
def updateItemFieldOps (collectionName itemId : String)
    (existingItem : JsObj) (updates : List (String × JsVal)) : List DbOp :=
  let st := cleanUpdates updates
  DbOp.update collectionName (spread existingItem st.acc) ::
    st.multiRefUpdates.map
      (fun r => DbOp.replaceReferences collectionName r.fieldName itemId
        r.ids)

/-- The key of the merged object an update entry writes to (`none` for a
`refs_`-prefixed entry, which never writes the accumulator). -/
def targetKey (kv : String × JsVal) : Option String :=
  if jsStartsWith kv.1 "date_" then some (jsDrop kv.1 5)
  else if jsStartsWith kv.1 "refs_" then none
  else if jsStartsWith kv.1 "safebool_" then some (jsDrop kv.1 9)
  else some kv.1

/-- The value an update entry stores under its target key (unused for
`refs_` entries). -/
def storedVal (kv : String × JsVal) : JsVal :=
  if jsStartsWith kv.1 "date_" then JsVal.date kv.2
  else if jsStartsWith kv.1 "refs_" then JsVal.undef
  else if jsStartsWith kv.1 "safebool_" then
    JsVal.bool (safeboolCoerce kv.2)
  else kv.2

/-- The accumulator-only projection of `cleanStep`. -/
def accStep (acc : JsObj) (kv : String × JsVal) : JsObj :=
  match targetKey kv with
  | some k => setKey acc k (storedVal kv)
  | none => acc

/-- The deferred reference updates one entry contributes (one for a
`refs_` key with an array value, none otherwise). -/
def refEntry (kv : String × JsVal) : List RefUpdate :=
  if jsStartsWith kv.1 "date_" then []
  else if jsStartsWith kv.1 "refs_" then
    match kv.2 with
    | JsVal.arr ids => [⟨jsDrop kv.1 5, ids⟩]
    | _ => []
  else []

/-- The deferred reference updates a whole entry list contributes, in
encounter order. -/
def refsOf : List (String × JsVal) → List RefUpdate
  | [] => []
  | kv :: rest => refEntry kv ++ refsOf rest

/-! ## `getMimeType` -/

/-- JS truthiness of an optional header/field string: `undefined` and the
empty string are the falsy cases that can occur here. -/
def falsyStr : Option String → Bool
  | none => true
  | some s => s == ""

/-- The string carried by a truthy optional value. -/
def getStr (o : Option String) : String :=
  o.getD ""

/-- `getMimeType` from the source: lowercase the last dot-segment of the
filename and look it up in the literal five-entry map, `|| 'image/jpeg'`
as the default (every value of the map is truthy). -/
def getMimeType (fileName : String) : String :=
  let ext := jsToLower (lastSeg (jsSplit fileName '.'))
  if ext = "jpg" then "image/jpeg"
  else if ext = "jpeg" then "image/jpeg"
  else if ext = "png" then "image/png"
  else if ext = "webp" then "image/webp"
  else if ext = "gif" then "image/gif"
  else "image/jpeg"

/-- The fixed extension table of the specification, as a finite lookup. -/
def mimeTable : List (String × String) :=
  [("jpg", "image/jpeg"), ("jpeg", "image/jpeg"), ("png", "image/png"),
   ("webp", "image/webp"), ("gif", "image/gif")]

/-- The filename's extension in the sense of the source: the lowercased
last dot-separated segment (the whole filename when it has no dot). -/
def extOf (fileName : String) : String :=
  jsToLower (lastSeg (jsSplit fileName '.'))

/-- The MIME type the (amended) specification assigns to a filename:
the table value of its extension, defaulting to `image/jpeg`. -/
def specMime (fileName : String) : String :=
  match mimeTable.lookup (extOf fileName) with
  | some m => m
  | none => "image/jpeg"

/-! ## `post_imageBulkUploader` (bulk media importer) -/

/-- The result object of one `mediaManager.importFile` call (the fields
the source reads). -/
structure ImportResult where
  fileUrl : String
  fileName : String
  mediaId : String
  deriving DecidableEq, Repr

/-- One per-item result pushed onto `uploadedResults`. -/
structure UploadResult where
  originalUrl : String
  fileUrl : String
  fileName : String
  mediaId : String
  deriving DecidableEq, Repr

/-- One entry of the request's `images` array.  The two fields the source
destructures; `none` models an absent (or JSON `null`) property, and
`some ""` an empty string — both falsy. -/
structure ImageEntry where
  imageName : Option String
  publicUrl : Option String
  deriving DecidableEq, Repr

/-- `imageName || publicUrl.split('/').pop() || `image-${Date.now()}.jpg``:
the JS `||` chain picking the first truthy alternative.  `now` stands for
`Date.now()`. -/
def bulkFileName (imageName : Option String) (url : String) (now : Nat) :
    String :=
  if falsyStr imageName then
    let seg := lastSeg (jsSplit url '/')
    if seg = "" then "image-" ++ toString now ++ ".jpg" else seg
  else getStr imageName

/-- An import oracle: the platform's `mediaManager.importFile`, given the
upload path, the source URL and the MIME type the handler passes; it
either returns a result or throws (`Except.error` with the error
message). -/
abbrev ImportFn := String → String → String → Except String ImportResult

/-- The body of the `for (const image of images)` loop: skip (and
continue) when `publicUrl` is falsy; otherwise derive the filename and
MIME type, call `importFile`, and push the per-item result.  An import
error aborts the loop (the `throw` escapes to the handler's `catch`). -/
def bulkLoop (imp : ImportFn) (folderName : String) (now : Nat) :
    List ImageEntry → List UploadResult → Except String (List UploadResult)
  | [], acc => Except.ok acc
  | image :: rest, acc =>
    if falsyStr image.publicUrl then
      bulkLoop imp folderName now rest acc
    else
      let url := getStr image.publicUrl
      let fileName := bulkFileName image.imageName url now
      match imp ("/" ++ folderName) url (getMimeType fileName) with
      | Except.error e => Except.error e
      | Except.ok r =>
        bulkLoop imp folderName now rest
          (acc ++ [⟨url, r.fileUrl, r.fileName, r.mediaId⟩])

/-- The JSON bodies the bulk handler can answer with: `ok` with
`{ success: true, uploaded }`, or `badRequest` with `{ error }`. -/
inductive BulkResponse where
  | ok (uploaded : List UploadResult)
  | badRequest (error : String)
  deriving DecidableEq, Repr

/-- The `try` body of `post_imageBulkUploader` after authorization, on the
parsed body: validate `folderName`/`images` (a non-array `images` is
`none`), run the loop from the empty result list, and shape the
response.  Any error escaping the loop reaches the `catch`, which answers
`badRequest { error: err.message }` — without the partial results. -/
def post_imageBulkUploader (imp : ImportFn) (folderName : Option String)
    (images : Option (List ImageEntry)) (now : Nat) : BulkResponse :=
  if falsyStr folderName || images.isNone then
    BulkResponse.badRequest "Missing or invalid 'folderName' or 'images' array"
  else
    match bulkLoop imp (getStr folderName) now (images.getD []) [] with
    | Except.ok results => BulkResponse.ok results
    | Except.error e => BulkResponse.badRequest e

/-! ## `isPermitted` (authorization check) -/

/-- The two request headers the check reads; `none` models an absent
header. -/
structure RequestHeaders where
  authorization : Option String
  auth : Option String
  deriving DecidableEq, Repr

/-- JS `headers.authorization || headers.auth`: the first truthy of the
two (an absent header is `undefined`, falsy; an empty string is falsy). -/
def jsOrStr (a b : Option String) : Option String :=
  if falsyStr a then b else a

/-- JS strict equality `v === s` between the chosen header value and the
secret string: `undefined === s` is false; strings compare exactly and
case-sensitively. -/
def jsStrictEqStr (v : Option String) (s : String) : Bool :=
  match v with
  | some x => x == s
  | none => false

/-- `isPermitted` from the source: `getSecret` is the platform call whose
outcome is `secretResult` (`Except.error` when retrieval throws, caught by
the source's `try/catch` which returns `false`).  Otherwise compare
`headers.authorization || headers.auth` strictly with the secret. -/
def isPermitted (headers : RequestHeaders)
    (secretResult : Except String String) : Bool :=
  match secretResult with
  | Except.error _ => false
  | Except.ok sharedAuthKey =>
    jsStrictEqStr (jsOrStr headers.authorization headers.auth) sharedAuthKey

/-- The header value as the claim words it: from `authorization`, or from
`auth` only when `authorization` is absent. -/
def claimHeaderValue (headers : RequestHeaders) : Option String :=
  match headers.authorization with
  | some v => some v
  | none => headers.auth

/-! ## `wixMediaManager_onFileUploaded` (upload-completion callback) -/

/-- The context object attached to an import, as the callback reads it. -/
structure UploadContext where
  collectionName : Option String
  itemId : Option String
  fieldName : Option String
  deriving DecidableEq, Repr

/-- The file info of the upload event. -/
structure FileInfo where
  fileUrl : Option String
  deriving DecidableEq, Repr

/-- The `{ context, fileInfo }` event payload; `none` models an absent
property. -/
structure FileUploadedEvent where
  context : Option UploadContext
  fileInfo : Option FileInfo
  deriving DecidableEq, Repr

/-- What one invocation of the callback does: start the
fetch–assign–persist pipeline for the named field, only log and no-op, or
escape with a TypeError (destructuring a missing `context`). -/
inductive CallbackAction where
  | updateField (collectionName itemId fieldName fileUrl : String)
  | logOnly
  | throwTypeError
  deriving DecidableEq, Repr

/-- `fileInfo?.fileUrl` truthiness. -/
def fileUrlTruthy (fileInfo : Option FileInfo) : Bool :=
  match fileInfo with
  | none => false
  | some f => !falsyStr f.fileUrl

/-- The guard common to both versions: all of `collectionName`, `itemId`,
`fieldName` (read through optional chaining on `context`) and
`fileInfo?.fileUrl` truthy. -/
def callbackGuard (e : FileUploadedEvent) : Bool :=
  !falsyStr (e.context.bind (fun c => c.collectionName)) &&
  !falsyStr (e.context.bind (fun c => c.itemId)) &&
  !falsyStr (e.context.bind (fun c => c.fieldName)) &&
  fileUrlTruthy e.fileInfo

/-- The events.js version of the callback in `uploadImageToItem.js`
(guard first, via `context?.field` optional chaining): under the guard it
fetches the item, sets the field to `fileInfo.fileUrl` and persists;
otherwise it logs and does nothing.  It never throws. -/
def wixMediaManager_onFileUploaded (e : FileUploadedEvent) :
    CallbackAction :=
  if callbackGuard e then
    CallbackAction.updateField
      (getStr (e.context.bind (fun c => c.collectionName)))
      (getStr (e.context.bind (fun c => c.itemId)))
      (getStr (e.context.bind (fun c => c.fieldName)))
      (getStr (e.fileInfo.bind (fun f => f.fileUrl)))
  else CallbackAction.logOnly

/-- The earlier copy of the callback (src/unnamed/part_000): it
destructures `const { collectionName, itemId, fieldName } = context`
before any guard, so a missing `context` raises a TypeError; with a
context object present it behaves like the guarded version. -/
def wixMediaManager_onFileUploaded_v0 (e : FileUploadedEvent) :
    CallbackAction :=
  match e.context with
  | none => CallbackAction.throwTypeError
  | some c =>
    if !falsyStr c.collectionName && !falsyStr c.itemId &&
        !falsyStr c.fieldName && fileUrlTruthy e.fileInfo then
      CallbackAction.updateField (getStr c.collectionName)
        (getStr c.itemId) (getStr c.fieldName)
        (getStr (e.fileInfo.bind (fun f => f.fileUrl)))
    else CallbackAction.logOnly

/-- Whether an action is the fetch–assign–persist pipeline. -/
def isUpdateAction : CallbackAction → Bool
  | CallbackAction.updateField _ _ _ _ => true
  | _ => false

/-- The per-item result the bulk loop pushes for an entry with a truthy
`publicUrl`, when every import succeeds (`rimp` is the successful import
oracle). -/
def bulkResultOf (rimp : String → String → String → ImportResult)
    (folderName : String) (now : Nat) (i : ImageEntry) : UploadResult :=
  let url := getStr i.publicUrl
  let r := rimp ("/" ++ folderName) url
    (getMimeType (bulkFileName i.imageName url now))
  ⟨url, r.fileUrl, r.fileName, r.mediaId⟩

/-! ## Helper lemmas: object access -/

theorem getKey_setKey (obj : JsObj) (k k' : String) (v : JsVal) :
    getKey (setKey obj k v) k' = if k' = k then v else getKey obj k' := by
  induction obj with
  | nil =>
    by_cases h : k' = k
    · subst h; simp [setKey, getKey]
    · simp [setKey, getKey, h, Ne.symm h]
  | cons p rest ih =>
    by_cases h1 : p.1 = k
    · simp only [setKey, if_pos h1, getKey]
      by_cases h2 : k' = k
      · subst h2; simp
      · simp [h1, h2, Ne.symm h2]
    · simp only [setKey, if_neg h1, getKey]
      by_cases h2 : p.1 = k'
      · have h3 : ¬ k' = k := fun he => h1 (h2.trans he)
        simp [h2, h3]
      · simp [h2, ih]

theorem hasKey_setKey (obj : JsObj) (k k' : String) (v : JsVal) :
    hasKey (setKey obj k v) k' = (decide (k = k') || hasKey obj k') := by
  induction obj with
  | nil => simp [setKey, hasKey]
  | cons p rest ih =>
    by_cases h1 : p.1 = k
    · simp only [setKey, if_pos h1, hasKey, h1]
      rw [← Bool.or_assoc, Bool.or_self]
    · simp only [setKey, if_neg h1, hasKey, ih]
      rw [Bool.or_left_comm]

theorem keys_setKey (obj : JsObj) (k : String) (v : JsVal) :
    keys (setKey obj k v)
      = if hasKey obj k then keys obj else keys obj ++ [k] := by
  induction obj with
  | nil => simp [setKey, hasKey, keys]
  | cons p rest ih =>
    simp only [setKey, hasKey]
    by_cases h1 : p.1 = k
    · simp [keys, h1]
    · simp only [if_neg h1, keys, List.map_cons, decide_eq_true_eq, h1]
      by_cases h2 : hasKey rest k <;> simp_all [keys]

theorem hasKey_iff_mem_keys (obj : JsObj) (k : String) :
    hasKey obj k = true ↔ k ∈ keys obj := by
  induction obj with
  | nil => simp [hasKey, keys]
  | cons p rest ih =>
    simp only [hasKey, Bool.or_eq_true, decide_eq_true_eq, ih, keys,
      List.map_cons, List.mem_cons]
    exact or_congr eq_comm Iff.rfl

theorem nodup_keys_setKey (obj : JsObj) (k : String) (v : JsVal)
    (h : (keys obj).Nodup) : (keys (setKey obj k v)).Nodup := by
  rw [keys_setKey]
  by_cases hk : hasKey obj k
  · simp [hk, h]
  · have : k ∉ keys obj := fun hm =>
      hk ((hasKey_iff_mem_keys obj k).2 hm)
    simp [hk, List.nodup_append, h, this]

/-! ## Helper lemmas: spread -/

theorem spread_nil (a : JsObj) : spread a [] = a := rfl

theorem spread_cons (a : JsObj) (kv : String × JsVal) (b : JsObj) :
    spread a (kv :: b) = spread (setKey a kv.1 kv.2) b := rfl

theorem getKey_spread_not_has (b : JsObj) (k : String)
    (h : hasKey b k = false) (a : JsObj) :
    getKey (spread a b) k = getKey a k := by
  induction b generalizing a with
  | nil => rfl
  | cons kv rest ih =>
    simp only [hasKey, Bool.or_eq_false_iff, decide_eq_false_iff_not] at h
    rw [spread_cons, ih h.2, getKey_setKey]
    exact if_neg (fun he => h.1 (he.symm))

theorem getKey_spread_has (b : JsObj) (k : String)
    (hnd : (keys b).Nodup) (h : hasKey b k = true) (a : JsObj) :
    getKey (spread a b) k = getKey b k := by
  induction b generalizing a with
  | nil => simp [hasKey] at h
  | cons kv rest ih =>
    simp only [keys, List.map_cons, List.nodup_cons] at hnd
    rw [spread_cons]
    by_cases hk : kv.1 = k
    · subst hk
      have hrest : hasKey rest kv.1 = false := by
        rcases hh : hasKey rest kv.1 with _ | _
        · rfl
        · exact absurd ((hasKey_iff_mem_keys rest kv.1).1 hh) hnd.1
      rw [getKey_spread_not_has rest kv.1 hrest, getKey_setKey]
      simp [getKey]
    · simp only [hasKey, Bool.or_eq_true, decide_eq_true_eq] at h
      rcases h with h | h
      · exact absurd h hk
      · rw [ih hnd.2 h, getKey]
        simp [hk]

theorem hasKey_spread (b : JsObj) (k : String) (a : JsObj) :
    hasKey (spread a b) k = (hasKey a k || hasKey b k) := by
  induction b generalizing a with
  | nil => simp [spread_nil, hasKey]
  | cons kv rest ih =>
    rw [spread_cons, ih, hasKey_setKey]
    simp only [hasKey]
    by_cases h1 : kv.1 = k <;> simp [h1]

/-! ## Helper lemmas: string prefixes -/

theorem startsWithExcl {p q : String} (k : String)
    (h1 : p.data.isPrefixOf q.data = false)
    (h2 : q.data.isPrefixOf p.data = false) :
    jsStartsWith k q = true → jsStartsWith k p = false := by
  intro hq
  by_contra hp
  rw [Bool.not_eq_false] at hp
  unfold jsStartsWith at hp hq
  rw [ List.isPrefixOf_iff_prefix] at hp hq
  simp only [ List.isPrefixOf_iff_prefix, Bool.eq_false_iff] at h1 h2
  rcases Nat.le_total p.data.length q.data.length with h | h
  · exact absurd (List.prefix_of_prefix_length_le hp hq h)
      (by simpa using h1)
  · exact absurd (List.prefix_of_prefix_length_le hq hp h)
      (by simpa using h2)

theorem safebool_not_date {k : String}
    (h : jsStartsWith k "safebool_" = true) :
    jsStartsWith k "date_" = false :=
  startsWithExcl k (by decide) (by decide) h

theorem safebool_not_refs {k : String}
    (h : jsStartsWith k "safebool_" = true) :
    jsStartsWith k "refs_" = false :=
  startsWithExcl k (by decide) (by decide) h

theorem refs_not_date {k : String}
    (h : jsStartsWith k "refs_" = true) :
    jsStartsWith k "date_" = false :=
  startsWithExcl k (by decide) (by decide) h

theorem image_not_date {k : String}
    (h : jsStartsWith k "image_" = true) :
    jsStartsWith k "date_" = false :=
  startsWithExcl k (by decide) (by decide) h

theorem image_not_refs {k : String}
    (h : jsStartsWith k "image_" = true) :
    jsStartsWith k "refs_" = false :=
  startsWithExcl k (by decide) (by decide) h

theorem image_not_safebool {k : String}
    (h : jsStartsWith k "image_" = true) :
    jsStartsWith k "safebool_" = false :=
  startsWithExcl k (by decide) (by decide) h

theorem length_le_of_jsStartsWith {k pre : String}
    (h : jsStartsWith k pre = true) : pre.data.length ≤ k.data.length := by
  unfold jsStartsWith at h
  rw [ List.isPrefixOf_iff_prefix] at h
  exact h.length_le

theorem jsDrop_ne_self {k : String} (n : Nat) (hn : 0 < n)
    (hlen : n ≤ k.data.length) : jsDrop k n ≠ k := by
  intro he
  have hd : k.data.drop n = k.data := congrArg String.data he
  have := congrArg List.length hd
  simp only [List.length_drop] at this
  omega

/-! ## Helper lemmas: the merge fold -/

theorem cleanStep_acc (s : CleanState) (kv : String × JsVal) :
    (cleanStep s kv).acc = accStep s.acc kv := by
  unfold cleanStep accStep targetKey storedVal
  by_cases h1 : jsStartsWith kv.1 "date_" = true
  · simp [h1]
  · by_cases h2 : jsStartsWith kv.1 "refs_" = true
    · simp only [Bool.not_eq_true] at h1
      rcases kv with ⟨key, v⟩
      cases v <;> simp [h1, h2]
    · by_cases h3 : jsStartsWith kv.1 "safebool_" = true <;>
        simp_all

theorem cleanStep_refs (s : CleanState) (kv : String × JsVal) :
    (cleanStep s kv).multiRefUpdates
      = s.multiRefUpdates ++ refEntry kv := by
  unfold cleanStep refEntry
  by_cases h1 : jsStartsWith kv.1 "date_" = true
  · simp [h1]
  · by_cases h2 : jsStartsWith kv.1 "refs_" = true
    · simp only [Bool.not_eq_true] at h1
      rcases kv with ⟨key, v⟩
      cases v <;> simp [h1, h2]
    · by_cases h3 : jsStartsWith kv.1 "safebool_" = true <;>
        simp_all

theorem foldl_cleanStep_acc (l : List (String × JsVal)) (s : CleanState) :
    (List.foldl cleanStep s l).acc = List.foldl accStep s.acc l := by
  induction l generalizing s with
  | nil => rfl
  | cons kv rest ih =>
    rw [List.foldl_cons, List.foldl_cons, ih, cleanStep_acc]

theorem foldl_cleanStep_refs (l : List (String × JsVal)) (s : CleanState) :
    (List.foldl cleanStep s l).multiRefUpdates
      = s.multiRefUpdates ++ refsOf l := by
  induction l generalizing s with
  | nil => simp [refsOf]
  | cons kv rest ih =>
    rw [List.foldl_cons, ih, cleanStep_refs, refsOf, List.append_assoc]

theorem refsOf_append (l1 l2 : List (String × JsVal)) :
    refsOf (l1 ++ l2) = refsOf l1 ++ refsOf l2 := by
  induction l1 with
  | nil => simp [refsOf]
  | cons kv rest ih => simp [refsOf, ih]

theorem getKey_foldl_accStep (l : List (String × JsVal)) (k : String)
    (h : ∀ kv ∈ l, targetKey kv ≠ some k) (acc : JsObj) :
    getKey (List.foldl accStep acc l) k = getKey acc k := by
  induction l generalizing acc with
  | nil => rfl
  | cons kv rest ih =>
    rw [List.foldl_cons, ih (fun e he => h e (List.mem_cons_of_mem kv he))]
    unfold accStep
    rcases ht : targetKey kv with _ | k'
    · rfl
    · have hne : k' ≠ k := fun he =>
        h kv (List.mem_cons_self kv rest) (by rw [ht, he])
      rw [getKey_setKey]
      exact if_neg (fun he => hne he.symm)

theorem hasKey_foldl_accStep (l : List (String × JsVal)) (k : String)
    (h : ∀ kv ∈ l, targetKey kv ≠ some k) (acc : JsObj) :
    hasKey (List.foldl accStep acc l) k = hasKey acc k := by
  induction l generalizing acc with
  | nil => rfl
  | cons kv rest ih =>
    rw [List.foldl_cons, ih (fun e he => h e (List.mem_cons_of_mem kv he))]
    unfold accStep
    rcases ht : targetKey kv with _ | k'
    · rfl
    · have hne : k' ≠ k := fun he =>
        h kv (List.mem_cons_self kv rest) (by rw [ht, he])
      rw [hasKey_setKey]
      simp [hne]

theorem nodup_keys_foldl_accStep (l : List (String × JsVal)) (acc : JsObj)
    (h : (keys acc).Nodup) :
    (keys (List.foldl accStep acc l)).Nodup := by
  induction l generalizing acc with
  | nil => exact h
  | cons kv rest ih =>
    rw [List.foldl_cons]
    apply ih
    unfold accStep
    rcases targetKey kv with _ | k'
    · exact h
    · exact nodup_keys_setKey acc k' _ h

/-! ## Helper lemmas: the bulk loop -/

theorem bulkLoop_cons (imp : ImportFn) (folderName : String) (now : Nat)
    (image : ImageEntry) (rest : List ImageEntry)
    (acc : List UploadResult) :
    bulkLoop imp folderName now (image :: rest) acc
      = if falsyStr image.publicUrl then bulkLoop imp folderName now rest acc
        else
          match imp ("/" ++ folderName) (getStr image.publicUrl)
              (getMimeType (bulkFileName image.imageName
                (getStr image.publicUrl) now)) with
          | Except.error e => Except.error e
          | Except.ok r =>
            bulkLoop imp folderName now rest
              (acc ++ [⟨getStr image.publicUrl, r.fileUrl, r.fileName,
                r.mediaId⟩]) := rfl

theorem bulkLoop_append (imp : ImportFn) (folderName : String) (now : Nat)
    (l1 l2 : List ImageEntry) (acc : List UploadResult) :
    bulkLoop imp folderName now (l1 ++ l2) acc
      = match bulkLoop imp folderName now l1 acc with
        | Except.ok acc' => bulkLoop imp folderName now l2 acc'
        | Except.error e => Except.error e := by
  induction l1 generalizing acc with
  | nil => rfl
  | cons image rest ih =>
    rw [List.cons_append, bulkLoop_cons, bulkLoop_cons]
    by_cases h : falsyStr image.publicUrl = true
    · simp only [h, if_true]
      exact ih acc
    · simp only [h, if_false]
      rcases himp : imp ("/" ++ folderName) (getStr image.publicUrl)
          (getMimeType (bulkFileName image.imageName
            (getStr image.publicUrl) now)) with e | r
      · rfl
      · exact ih _

theorem bulkLoop_all_ok (rimp : String → String → String → ImportResult)
    (folderName : String) (now : Nat) (l : List ImageEntry)
    (acc : List UploadResult) :
    bulkLoop (fun p u m => Except.ok (rimp p u m)) folderName now l acc
      = Except.ok (acc ++
          (l.filter (fun i => !falsyStr i.publicUrl)).map
            (bulkResultOf rimp folderName now)) := by
  induction l generalizing acc with
  | nil => simp [bulkLoop]
  | cons image rest ih =>
    rw [bulkLoop_cons]
    by_cases h : falsyStr image.publicUrl = true
    · simp only [h, if_true, List.filter_cons, Bool.not_true,
        Bool.false_eq_true, if_false]
      exact ih acc
    · have hf : falsyStr image.publicUrl = false := by
        simpa using h
      simp only [hf, Bool.false_eq_true, if_false, List.filter_cons,
        Bool.not_false, if_true, List.map_cons]
      rw [ih]
      simp [bulkResultOf, List.append_assoc]

/-! ## Helper lemmas: the MIME table -/

theorem mimeLookup (x : String) :
    (if x = "jpg" then "image/jpeg"
     else if x = "jpeg" then "image/jpeg"
     else if x = "png" then "image/png"
     else if x = "webp" then "image/webp"
     else if x = "gif" then "image/gif"
     else "image/jpeg")
      = match mimeTable.lookup x with
        | some m => m
        | none => "image/jpeg" := by
  unfold mimeTable
  by_cases h1 : x = "jpg"
  · simp [h1, List.lookup]
  · by_cases h2 : x = "jpeg"
    · simp [h1, h2, List.lookup, Ne.symm h1]
    · by_cases h3 : x = "png"
      · simp [List.lookup, h3]
      · by_cases h4 : x = "webp"
        · simp [List.lookup, h4]
        · by_cases h5 : x = "gif"
          · simp [List.lookup, h5]
          · have b1 : (x == "jpg") = false := beq_eq_false_iff_ne.mpr h1
            have b2 : (x == "jpeg") = false := beq_eq_false_iff_ne.mpr h2
            have b3 : (x == "png") = false := beq_eq_false_iff_ne.mpr h3
            have b4 : (x == "webp") = false := beq_eq_false_iff_ne.mpr h4
            have b5 : (x == "gif") = false := beq_eq_false_iff_ne.mpr h5
            simp [List.lookup, h1, h2, h3, h4, h5, b1, b2, b3, b4, b5]

/-! ## Claim C7: `getMimeType` -/

/-- C7, counterexample.  The claim says `getMimeType` returns `image/jpeg`
for every filename whose extension is missing, "in particular for a
filename containing no dot".  But for the dotless filename `"png"` the
source's `split('.').pop()` yields the whole filename, which the table
recognizes: the result is `image/png`, not the default. -/
theorem mime_claim_counterexample :
    getMimeType "png" = "image/png" ∧ getMimeType "png" ≠ "image/jpeg" := by
  decide

/-- C7 (corrected): for every filename, `getMimeType` returns the MIME
type of the fixed table {jpg/jpeg→image/jpeg, png→image/png,
webp→image/webp, gif→image/gif} applied to the filename's extension —
the lowercased last dot-separated segment, which is the whole filename
when it contains no dot — and `image/jpeg` whenever that segment is not
in the table. -/
theorem mime_table_amended (fileName : String) :
    getMimeType fileName = specMime fileName := by
  unfold getMimeType specMime extOf
  exact mimeLookup _

/-! ## Claim C8: `isPermitted` -/

/-- C8, counterexample.  The claim takes the compared header value from
`authorization` whenever it is present, falling back to `auth` only when
`authorization` is absent.  A request with a present but empty
`authorization` header and `auth` equal to the secret would then be
rejected (`"" ≠ "secret1"`), yet the source's `headers.authorization ||
headers.auth` falls back on the falsy empty string and permits it. -/
theorem auth_claim_counterexample :
    isPermitted ⟨some "", some "secret1"⟩ (Except.ok "secret1") = true
    ∧ claimHeaderValue ⟨some "", some "secret1"⟩ = some ""
    ∧ ("" : String) ≠ "secret1" := by
  decide

/-- C8 (corrected): `isPermitted` returns true iff the secret was
retrieved and the header value — `authorization` when truthy (present and
nonempty), otherwise `auth` — is exactly, case-sensitively, the stored
secret; it returns false whenever secret retrieval fails (fails
closed). -/
theorem auth_check_amended (headers : RequestHeaders)
    (secretResult : Except String String) :
    (isPermitted headers secretResult = true ↔
      ∃ s, secretResult = Except.ok s
        ∧ jsOrStr headers.authorization headers.auth = some s)
    ∧ (∀ msg, secretResult = Except.error msg →
        isPermitted headers secretResult = false) := by
  constructor
  · rcases secretResult with msg | s0
    · simp [isPermitted]
    · simp only [isPermitted, Except.ok.injEq]
      rcases hv : jsOrStr headers.authorization headers.auth with _ | x
      · simp [jsStrictEqStr]
      · simp only [jsStrictEqStr, beq_iff_eq, Option.some.injEq]
        constructor
        · intro hx
          exact ⟨s0, rfl, hx⟩
        · rintro ⟨s, hs, hx⟩
          rw [hx, hs]
  · intro msg hmsg
    rw [hmsg]
    rfl

/-- C8, witness: `auth: "secret1"` with stored secret `"secret1"` is
permitted; the case-variant `"Secret1"` is rejected; a retrieval failure
is rejected. -/
theorem auth_check_amended_witness :
    isPermitted ⟨some "", some "secret1"⟩ (Except.ok "secret1") = true
    ∧ isPermitted ⟨none, some "Secret1"⟩ (Except.ok "secret1") = false
    ∧ isPermitted ⟨some "secret1", none⟩ (Except.error "boom") = false := by
  refine ⟨(auth_check_amended ⟨some "", some "secret1"⟩
      (Except.ok "secret1")).1.mpr ⟨"secret1", rfl, by decide⟩, by decide,
    (auth_check_amended ⟨some "secret1", none⟩
      (Except.error "boom")).2 "boom" rfl⟩

/-! ## Claim C10: falsy-`authorization` fallback -/

/-- C10 (confirmed): the fallback to the `auth` header is taken whenever
`headers.authorization` is falsy — absent or the empty string — not only
when it is absent; in particular an empty-string `authorization` together
with `auth` equal to the secret is permitted. -/
theorem auth_falsy_fallback (headers : RequestHeaders) (secret : String)
    (hfalsy : falsyStr headers.authorization = true) :
    jsOrStr headers.authorization headers.auth = headers.auth
    ∧ (headers.auth = some secret →
        isPermitted headers (Except.ok secret) = true) := by
  constructor
  · simp [jsOrStr, hfalsy]
  · intro ha
    simp [isPermitted, jsOrStr, hfalsy, ha, jsStrictEqStr]

/-- C10, witness: `authorization: ""` (present, falsy) with
`auth: "k"` and stored secret `"k"` is permitted. -/
theorem auth_falsy_fallback_witness :
    jsOrStr (some "") (some "k") = some "k"
    ∧ isPermitted ⟨some "", some "k"⟩ (Except.ok "k") = true := by
  have h := auth_falsy_fallback ⟨some "", some "k"⟩ "k" (by decide)
  exact ⟨h.1, h.2 rfl⟩

/-! ## Claim C4: the upload-completion callback guard -/

/-- C4, counterexample.  The claim says that for every event in which a
required field is missing — including a missing `context` object — the
callback only logs and performs no state change.  The copy of the
callback in `src/unnamed/part_000` destructures
`const { collectionName, itemId, fieldName } = context` before its guard,
so an event without a `context` object raises a TypeError instead of
logging. -/
theorem callback_claim_counterexample :
    wixMediaManager_onFileUploaded_v0 ⟨none, some ⟨some "wix:u"⟩⟩
      = CallbackAction.throwTypeError
    ∧ CallbackAction.throwTypeError ≠ CallbackAction.logOnly := by
  decide

/-- C4 (corrected): the events-file version of
`wixMediaManager_onFileUploaded` in `uploadImageToItem.js` (guard first,
optional chaining) starts the fetch–assign–persist pipeline exactly when
`context?.collectionName`, `context?.itemId`, `context?.fieldName` and
`fileInfo?.fileUrl` are all truthy, and only logs otherwise — including
for a missing `context` object.  The earlier copy in
`src/unnamed/part_000` behaves that way only when a `context` object is
present; with `context` missing it raises a TypeError during
destructuring (still no state change, but no log-and-skip). -/
theorem callback_guard_amended (e : FileUploadedEvent) :
    (isUpdateAction (wixMediaManager_onFileUploaded e) = callbackGuard e)
    ∧ (callbackGuard e = false →
        wixMediaManager_onFileUploaded e = CallbackAction.logOnly)
    ∧ (∀ c, e.context = some c →
        isUpdateAction (wixMediaManager_onFileUploaded_v0 e)
            = callbackGuard e
        ∧ (callbackGuard e = false →
            wixMediaManager_onFileUploaded_v0 e = CallbackAction.logOnly))
    ∧ (e.context = none →
        wixMediaManager_onFileUploaded_v0 e
          = CallbackAction.throwTypeError) := by
  refine ⟨?_, ?_, ?_, ?_⟩
  · by_cases hg : callbackGuard e = true
    · simp [wixMediaManager_onFileUploaded, hg, isUpdateAction]
    · simp only [Bool.not_eq_true] at hg
      simp [wixMediaManager_onFileUploaded, hg, isUpdateAction]
  · intro hg
    simp [wixMediaManager_onFileUploaded, hg]
  · intro c hc
    have hguard : callbackGuard e
        = (!falsyStr c.collectionName && !falsyStr c.itemId &&
            !falsyStr c.fieldName && fileUrlTruthy e.fileInfo) := by
      simp [callbackGuard, hc]
    constructor
    · by_cases hg : callbackGuard e = true
      · rw [hguard] at hg
        simp [wixMediaManager_onFileUploaded_v0, hc, hg, isUpdateAction,
          hguard]
      · simp only [Bool.not_eq_true] at hg
        rw [hguard] at hg
        simp [wixMediaManager_onFileUploaded_v0, hc, hg, isUpdateAction,
          hguard]
    · intro hg
      rw [hguard] at hg
      simp [wixMediaManager_onFileUploaded_v0, hc, hg]
  · intro hc
    simp [wixMediaManager_onFileUploaded_v0, hc]

/-- C4, witness: an event with a context that lacks `fieldName` is only
logged by the guarded version, and an event with no context at all makes
the `part_000` version throw. -/
theorem callback_guard_amended_witness :
    wixMediaManager_onFileUploaded
        ⟨some ⟨some "c", some "i", none⟩, some ⟨some "wix:u"⟩⟩
      = CallbackAction.logOnly
    ∧ wixMediaManager_onFileUploaded_v0 ⟨none, some ⟨some "wix:u"⟩⟩
      = CallbackAction.throwTypeError := by
  refine ⟨(callback_guard_amended
      ⟨some ⟨some "c", some "i", none⟩, some ⟨some "wix:u"⟩⟩).2.1
        (by decide),
    (callback_guard_amended ⟨none, some ⟨some "wix:u"⟩⟩).2.2.2 rfl⟩

/-! ## Claim C9: `refs_` keys with a non-array value -/

/-- C9 (confirmed): a `refs_<k>` entry whose value is not an array is
dropped entirely and without error: the whole clean state — the merge
accumulator and the deferred reference list — and hence the merged record
and the entire persistence trace are as if the entry were not there.  In
particular nothing is stored under `refs_<k>` or `<k>`, and no deferred
replace-references operation is recorded. -/
theorem refs_non_array_dropped (collectionName itemId : String)
    (existingItem : JsObj) (pre post : List (String × JsVal))
    (key : String) (v : JsVal)
    (href : jsStartsWith key "refs_" = true)
    (harr : ∀ ids, v ≠ JsVal.arr ids) :
    cleanUpdates (pre ++ (key, v) :: post) = cleanUpdates (pre ++ post)
    ∧ mergedItem existingItem (pre ++ (key, v) :: post)
        = mergedItem existingItem (pre ++ post)
    ∧ updateItemFieldOps collectionName itemId existingItem
          (pre ++ (key, v) :: post)
        = updateItemFieldOps collectionName itemId existingItem
          (pre ++ post) := by
  have hstep : ∀ s : CleanState, cleanStep s (key, v) = s := by
    intro s
    unfold cleanStep
    simp only [refs_not_date href, Bool.false_eq_true, if_false, href,
      if_true]
  have hclean : cleanUpdates (pre ++ (key, v) :: post)
      = cleanUpdates (pre ++ post) := by
    unfold cleanUpdates
    rw [List.foldl_append, List.foldl_append, List.foldl_cons, hstep]
  exact ⟨hclean, by unfold mergedItem; rw [hclean],
    by unfold updateItemFieldOps; rw [hclean]⟩

/-- C9, witness: the entry `refs_tags: "oops"` (a string, not an array)
changes neither the clean state nor the merged record nor the issued
operations. -/
theorem refs_non_array_dropped_witness :
    cleanUpdates [("refs_tags", JsVal.str "oops")] = cleanUpdates []
    ∧ mergedItem [("a", JsVal.num 2)] [("refs_tags", JsVal.str "oops")]
        = mergedItem [("a", JsVal.num 2)] []
    ∧ updateItemFieldOps "c" "i" [("a", JsVal.num 2)]
          [("refs_tags", JsVal.str "oops")]
        = updateItemFieldOps "c" "i" [("a", JsVal.num 2)] [] :=
  refs_non_array_dropped "c" "i" [("a", JsVal.num 2)] [] []
    "refs_tags" (JsVal.str "oops") (by decide)
    (fun _ h => JsVal.noConfusion h)

/-! ## Claim C3: interception of `image_` and `refs_` keys -/

/-- C3, counterexample.  The claim says `image_`-prefixed keys never
reach the literal pass-through path of the field-update merge.  But
`post_updateItemField` has no `image_` branch: the entry
`image_photo: "http://x/a.jpg"` falls into the final `acc[key] = value`
case and is shallow-merged verbatim into the record under its literal
key. -/
theorem image_passthrough_counterexample :
    getKey (mergedItem [] [("image_photo", JsVal.str "http://x/a.jpg")])
        "image_photo"
      = JsVal.str "http://x/a.jpg"
    ∧ hasKey (mergedItem [] [("image_photo", JsVal.str "http://x/a.jpg")])
        "image_photo" = true := by
  decide

/-- C3 (corrected): in `post_updateItemField`'s merge, `refs_`-prefixed
keys are always intercepted — a `refs_` entry never writes the merge
accumulator, whatever its value — but `image_`-prefixed keys are not: an
`image_` entry takes the literal pass-through branch and is merged
verbatim under its literal key (`image_` handling exists only in the
separate `post_uploadImageToItem` handler, which performs no merge). -/
theorem key_interception_amended (s : CleanState) (key : String)
    (v : JsVal) :
    (jsStartsWith key "refs_" = true → (cleanStep s (key, v)).acc = s.acc)
    ∧ (jsStartsWith key "image_" = true →
        cleanStep s (key, v) = { s with acc := setKey s.acc key v }) := by
  constructor
  · intro href
    unfold cleanStep
    simp only [refs_not_date href, Bool.false_eq_true, if_false, href,
      if_true]
    cases v <;> rfl
  · intro himg
    unfold cleanStep
    simp [image_not_date himg, image_not_refs himg,
      image_not_safebool himg]

/-- C3, witness: a `refs_` entry leaves the accumulator unchanged and an
`image_` entry is passed through verbatim. -/
theorem key_interception_amended_witness :
    (cleanStep ⟨[("a", JsVal.num 7)], []⟩
        ("refs_tags", JsVal.str "x")).acc = [("a", JsVal.num 7)]
    ∧ cleanStep ⟨[("a", JsVal.num 7)], []⟩
        ("image_photo", JsVal.str "http://x/a.jpg")
      = { acc := setKey [("a", JsVal.num 7)] "image_photo"
            (JsVal.str "http://x/a.jpg"),
          multiRefUpdates := [] } :=
  ⟨(key_interception_amended ⟨[("a", JsVal.num 7)], []⟩ "refs_tags"
      (JsVal.str "x")).1 (by decide),
   (key_interception_amended ⟨[("a", JsVal.num 7)], []⟩ "image_photo"
      (JsVal.str "http://x/a.jpg")).2 (by decide)⟩

/-! ## Claim C2: `refs_` entries with array values -/

/-- C2 (confirmed): a `refs_<k>` entry whose value is an array of
identifiers contributes nothing to the merge accumulator — the merged
record is built exactly as if the entry were absent, so key `<k>` never
enters it from that update — and the persistence trace issues the main
`wixData.update` first, followed by a `wixData.replaceReferences`
operation for field `<k>` carrying exactly the given identifiers in their
given order. -/
theorem refs_array_replace_spec (collectionName itemId : String)
    (existingItem : JsObj) (pre post : List (String × JsVal))
    (key : String) (ids : List String)
    (href : jsStartsWith key "refs_" = true) :
    (cleanUpdates (pre ++ (key, JsVal.arr ids) :: post)).acc
      = (cleanUpdates (pre ++ post)).acc
    ∧ ∃ l1 l2,
        updateItemFieldOps collectionName itemId existingItem
            (pre ++ (key, JsVal.arr ids) :: post)
          = DbOp.update collectionName
              (mergedItem existingItem (pre ++ (key, JsVal.arr ids) :: post))
            :: (l1 ++ DbOp.replaceReferences collectionName (jsDrop key 5)
                  itemId ids :: l2) := by
  have hstep : ∀ s : CleanState, cleanStep s (key, JsVal.arr ids)
      = { s with multiRefUpdates :=
            s.multiRefUpdates ++ [⟨jsDrop key 5, ids⟩] } := by
    intro s
    unfold cleanStep
    simp only [refs_not_date href, Bool.false_eq_true, if_false, href,
      if_true]
  constructor
  · unfold cleanUpdates
    rw [List.foldl_append, List.foldl_append, List.foldl_cons, hstep]
    simp only [foldl_cleanStep_acc]
  · refine ⟨(refsOf pre).map (fun r =>
        DbOp.replaceReferences collectionName r.fieldName itemId r.ids),
      (refsOf post).map (fun r =>
        DbOp.replaceReferences collectionName r.fieldName itemId r.ids),
      ?_⟩
    have hrefs : (cleanUpdates (pre ++ (key, JsVal.arr ids) :: post)).multiRefUpdates
        = refsOf pre ++ ⟨jsDrop key 5, ids⟩ :: refsOf post := by
      unfold cleanUpdates
      rw [foldl_cleanStep_refs, refsOf_append, refsOf]
      have hentry : refEntry (key, JsVal.arr ids)
          = [⟨jsDrop key 5, ids⟩] := by
        unfold refEntry
        simp only [refs_not_date href, Bool.false_eq_true, if_false, href,
          if_true]
      rw [hentry]
      simp
    simp only [updateItemFieldOps, mergedItem]
    rw [hrefs]
    simp

/-- C2, witness: the update map `{t: "v", refs_tags: ["id1","id2"]}` on an
existing record `{a: "1"}`: the merge accumulator equals the one without
the `refs_` entry, and the trace is the main update followed by the
replace-references operation for `tags` with `["id1","id2"]`. -/
theorem refs_array_replace_spec_witness :
    (cleanUpdates [("t", JsVal.str "v"),
        ("refs_tags", JsVal.arr ["id1", "id2"])]).acc
      = (cleanUpdates [("t", JsVal.str "v")]).acc
    ∧ ∃ l1 l2,
        updateItemFieldOps "c" "i" [("a", JsVal.str "1")]
            [("t", JsVal.str "v"), ("refs_tags", JsVal.arr ["id1", "id2"])]
          = DbOp.update "c"
              (mergedItem [("a", JsVal.str "1")]
                [("t", JsVal.str "v"),
                 ("refs_tags", JsVal.arr ["id1", "id2"])])
            :: (l1 ++ DbOp.replaceReferences "c" "tags" "i" ["id1", "id2"]
                  :: l2) :=
  refs_array_replace_spec "c" "i" [("a", JsVal.str "1")]
    [("t", JsVal.str "v")] [] "refs_tags" ["id1", "id2"] (by decide)

/-! ## Claim C1: `safebool_` coercion -/

/-- C1, counterexample.  The claim quantifies over every updates map, but
a later entry of the same map can overwrite the coerced value: with
`{safebool_x: true, x: "hello"}` the merged record stores the string
`"hello"` under `x`, not boolean true, although the update value of
`safebool_x` is boolean true.  Moreover the safebool key itself can
appear in the merged record when the existing record already carries it:
merging `{safebool_x: true}` over `{safebool_x: 0}` keeps `safebool_x`. -/
theorem safebool_claim_counterexample :
    getKey (mergedItem []
        [("safebool_x", JsVal.bool true), ("x", JsVal.str "hello")]) "x"
      = JsVal.str "hello"
    ∧ JsVal.str "hello" ≠ JsVal.bool true
    ∧ hasKey (mergedItem [("safebool_x", JsVal.num 0)]
        [("safebool_x", JsVal.bool true)]) "safebool_x" = true := by
  decide

/-- C1 (corrected): for a `safebool_<name>` entry of the updates map,
provided no later entry of the map writes to `<name>`, the merged record
stores under `<name>` boolean true exactly when the update value is
boolean `true`, the string `"true"`, the number `1` or the string `"1"`,
and boolean false for every other value; and provided neither the
existing record nor any entry of the map carries the `safebool_`-prefixed
key itself, that key does not appear in the merged record. -/
theorem safebool_merge_amended (existingItem : JsObj)
    (pre post : List (String × JsVal)) (key : String) (v : JsVal)
    (hsb : jsStartsWith key "safebool_" = true)
    (hpost : ∀ kv ∈ post, targetKey kv ≠ some (jsDrop key 9))
    (hothers : ∀ kv ∈ pre ++ post, targetKey kv ≠ some key)
    (hex : hasKey existingItem key = false) :
    (getKey (mergedItem existingItem (pre ++ (key, v) :: post))
        (jsDrop key 9)
      = JsVal.bool (safeboolCoerce v))
    ∧ (safeboolCoerce v = true ↔
        (v = JsVal.bool true ∨ v = JsVal.str "true" ∨ v = JsVal.num 1
          ∨ v = JsVal.str "1"))
    ∧ hasKey (mergedItem existingItem (pre ++ (key, v) :: post)) key
        = false := by
  have hd := safebool_not_date hsb
  have hr := safebool_not_refs hsb
  have htarget : targetKey (key, v) = some (jsDrop key 9) := by
    unfold targetKey
    simp [hd, hr, hsb]
  have hstored : storedVal (key, v) = JsVal.bool (safeboolCoerce v) := by
    unfold storedVal
    simp [hd, hr, hsb]
  have haccfold : (cleanUpdates (pre ++ (key, v) :: post)).acc
      = List.foldl accStep
          (accStep (List.foldl accStep [] pre) (key, v)) post := by
    unfold cleanUpdates
    rw [foldl_cleanStep_acc, List.foldl_append, List.foldl_cons]
  have hmid : accStep (List.foldl accStep [] pre) (key, v)
      = setKey (List.foldl accStep [] pre) (jsDrop key 9)
          (JsVal.bool (safeboolCoerce v)) := by
    unfold accStep
    rw [htarget, hstored]
  have hget : getKey (cleanUpdates (pre ++ (key, v) :: post)).acc
      (jsDrop key 9) = JsVal.bool (safeboolCoerce v) := by
    rw [haccfold, hmid, getKey_foldl_accStep post (jsDrop key 9) hpost,
      getKey_setKey]
    simp
  have hhas : hasKey (cleanUpdates (pre ++ (key, v) :: post)).acc
      (jsDrop key 9) = true := by
    rw [haccfold, hmid, hasKey_foldl_accStep post (jsDrop key 9) hpost,
      hasKey_setKey]
    simp
  have hnodup : (keys (cleanUpdates (pre ++ (key, v) :: post)).acc).Nodup := by
    unfold cleanUpdates
    rw [foldl_cleanStep_acc]
    exact nodup_keys_foldl_accStep _ [] (by simp [keys])
  refine ⟨?_, ?_, ?_⟩
  · unfold mergedItem
    rw [getKey_spread_has _ _ hnodup hhas, hget]
  · unfold safeboolCoerce
    simp only [Bool.or_eq_true, beq_iff_eq]
    tauto
  · have hall : ∀ kv ∈ pre ++ (key, v) :: post, targetKey kv ≠ some key := by
      intro kv hkv
      rcases List.mem_append.1 hkv with hkv | hkv
      · exact hothers kv (List.mem_append.2 (Or.inl hkv))
      · rcases List.mem_cons.1 hkv with hkv | hkv
        · subst hkv
          rw [htarget]
          intro hcontra
          have heq : jsDrop key 9 = key := Option.some.inj hcontra
          exact jsDrop_ne_self 9 (by omega)
            (length_le_of_jsStartsWith hsb) heq
        · exact hothers kv (List.mem_append.2 (Or.inr hkv))
    have haccno : hasKey (cleanUpdates (pre ++ (key, v) :: post)).acc key
        = false := by
      unfold cleanUpdates
      rw [foldl_cleanStep_acc, hasKey_foldl_accStep _ key hall]
      rfl
    unfold mergedItem
    rw [hasKey_spread, hex, haccno]
    rfl

/-- C1, witness: merging `{safebool_flag: 1}` over `{other: "y"}` stores
boolean true under `flag` and the key `safebool_flag` is absent from the
merged record. -/
theorem safebool_merge_amended_witness :
    getKey (mergedItem [("other", JsVal.str "y")]
        [("safebool_flag", JsVal.num 1)]) "flag" = JsVal.bool true
    ∧ hasKey (mergedItem [("other", JsVal.str "y")]
        [("safebool_flag", JsVal.num 1)]) "safebool_flag" = false := by
  have h := safebool_merge_amended [("other", JsVal.str "y")] [] []
    "safebool_flag" (JsVal.num 1) (by decide)
    (fun kv hkv => absurd hkv (List.not_mem_nil kv))
    (fun kv hkv => absurd hkv (List.not_mem_nil kv)) (by decide)
  exact ⟨h.1, h.2.2⟩

/-! ## Claim C5: whole-batch abort on import error -/

/-- C5 (confirmed): if, after the entries of `pre` are processed without
an escaping error, the import of an entry with a truthy `publicUrl`
throws, then whatever the remaining entries `post` are — they are never
processed — the handler answers the single error response carrying the
thrown message, which contains none of the per-item results already
collected. -/
theorem bulk_abort_spec (imp : ImportFn) (folderName : String) (now : Nat)
    (pre post : List ImageEntry) (image : ImageEntry)
    (collected : List UploadResult) (e : String)
    (hfolder : folderName ≠ "")
    (hpre : bulkLoop imp folderName now pre [] = Except.ok collected)
    (hurl : falsyStr image.publicUrl = false)
    (himp : imp ("/" ++ folderName) (getStr image.publicUrl)
        (getMimeType (bulkFileName image.imageName
          (getStr image.publicUrl) now))
      = Except.error e) :
    post_imageBulkUploader imp (some folderName)
        (some (pre ++ image :: post)) now
      = BulkResponse.badRequest e := by
  have hloop : bulkLoop imp folderName now (pre ++ image :: post) []
      = Except.error e := by
    rw [bulkLoop_append, hpre]
    show bulkLoop imp folderName now (image :: post) collected
      = Except.error e
    rw [bulkLoop_cons, hurl]
    simp only [Bool.false_eq_true, if_false, himp]
  unfold post_imageBulkUploader
  have hv : falsyStr (some folderName) = false := by
    simp [falsyStr, hfolder]
  simp only [hv, Option.isNone_some, Bool.or_self, Bool.false_eq_true,
    if_false, getStr, Option.getD_some, hloop]

/-- C5, witness: a three-entry batch whose second import throws `"boom"`
answers `badRequest "boom"`, discarding the first entry's collected
result and never importing the third. -/
theorem bulk_abort_spec_witness :
    post_imageBulkUploader
        (fun _ u _ => if u = "http://x/bad.jpg" then Except.error "boom"
          else Except.ok ⟨"wix:u", "n", "m"⟩)
        (some "f")
        (some [⟨none, some "http://x/b.jpg"⟩, ⟨none, some "http://x/bad.jpg"⟩,
          ⟨none, some "http://x/c.jpg"⟩]) 0
      = BulkResponse.badRequest "boom" :=
  bulk_abort_spec
    (fun _ u _ => if u = "http://x/bad.jpg" then Except.error "boom"
      else Except.ok ⟨"wix:u", "n", "m"⟩)
    "f" 0 [⟨none, some "http://x/b.jpg"⟩] [⟨none, some "http://x/c.jpg"⟩]
    ⟨none, some "http://x/bad.jpg"⟩
    [⟨"http://x/b.jpg", "wix:u", "n", "m"⟩] "boom"
    (by decide) rfl (by decide) rfl

/-! ## Claim C6: skip entries without `publicUrl` -/

/-- C6 (confirmed): an entry with a falsy `publicUrl` is skipped and the
loop continues — it raises no error and adds nothing to the results,
whatever the import oracle does — and when every issued import succeeds
the response's `uploaded` array holds exactly one result per entry with a
truthy `publicUrl`, in input order. -/
theorem bulk_skip_spec (rimp : String → String → String → ImportResult)
    (folderName : String) (now : Nat) (images : List ImageEntry)
    (hfolder : folderName ≠ "") :
    (∀ (imp : ImportFn) (image : ImageEntry) (rest : List ImageEntry)
        (acc : List UploadResult), falsyStr image.publicUrl = true →
        bulkLoop imp folderName now (image :: rest) acc
          = bulkLoop imp folderName now rest acc)
    ∧ post_imageBulkUploader (fun p u m => Except.ok (rimp p u m))
          (some folderName) (some images) now
        = BulkResponse.ok
            ((images.filter (fun i => !falsyStr i.publicUrl)).map
              (bulkResultOf rimp folderName now)) := by
  constructor
  · intro imp image rest acc h
    rw [bulkLoop_cons, h]
    simp
  · unfold post_imageBulkUploader
    have hv : falsyStr (some folderName) = false := by
      simp [falsyStr, hfolder]
    simp only [hv, Option.isNone_some, Bool.or_self, Bool.false_eq_true,
      if_false, getStr, Option.getD_some, bulkLoop_all_ok]
    simp

/-- C6, witness: the specification's example —
`images = [{publicUrl: null}, {imageName: "b.jpg", publicUrl:
"http://x/b.jpg"}]` — yields exactly one uploaded entry, for `b.jpg`,
and the null entry produces neither an error nor an array entry. -/
theorem bulk_skip_spec_witness :
    post_imageBulkUploader (fun p u m => Except.ok
        ((fun _ _ _ => (⟨"wix:u", "n", "m"⟩ : ImportResult)) p u m))
        (some "f")
        (some [⟨none, none⟩, ⟨some "b.jpg", some "http://x/b.jpg"⟩]) 0
      = BulkResponse.ok [⟨"http://x/b.jpg", "wix:u", "n", "m"⟩] := by
  have h := (bulk_skip_spec (fun _ _ _ => ⟨"wix:u", "n", "m"⟩) "f" 0
    [⟨none, none⟩, ⟨some "b.jpg", some "http://x/b.jpg"⟩] (by decide)).2
  exact h.trans (by decide)

end Wix
